import Mathlib

/-!
Shallow embedding of the hierarchical requirement extraction engine of
`app.py` (class `StreamlitDocxExtractor`): the ID generator `_generate_id`,
the detail parser `_parse_details_from_paragraphs`, and the block
segmentation part of `process`.  A paragraph is modelled by its text and
left-indent measure; the indent (a point value in the source) enters the
algorithm only through order comparisons and is modelled as `Int`.
Python's regex classes `\s`, `\d`, `[A-Z]` are modelled by
`Char.isWhitespace`, `Char.isDigit` and an ASCII range test; this agrees
with CPython for the bullet glyphs and labels in scope.  Bullet glyph sets
are assumed disjoint from whitespace (true of every configuration the
application offers), under which the greedy matches of the source's
patterns reduce to the `dropWhile` scans used below.
-/

namespace ReqExtr

/-- A paragraph as the extractor sees it: its text and its left indent
(`_get_indentation_level`: `paragraph_format.left_indent.pt`, 0 when absent). -/
structure Para where
  text : String
  indent : Int
deriving DecidableEq

/-- A frame of `group_stack`: `{'title': ..., 'level': ...}`. -/
structure Frame where
  title : String
  level : Int
deriving DecidableEq

/-- One entry of `final_requirements` produced by
`_parse_details_from_paragraphs`: group title, detail content, generated id. -/
structure DetailRec where
  group : String
  detail : String
  genId : String
deriving DecidableEq

/-- A detail record after `process` has attached the block's source fields. -/
structure ProcRec where
  group : String
  detail : String
  genId : String
  srcId : String
  srcName : String
deriving DecidableEq

/-- Python `str.strip()`: remove whitespace at both ends. -/
def pyStrip (s : String) : String :=
  String.mk (((s.toList.dropWhile Char.isWhitespace).reverse.dropWhile
    Char.isWhitespace).reverse)

/-- Python `str.startswith(pre)`. -/
def pyStartsWith (pre s : String) : Bool :=
  pre.toList.isPrefixOf s.toList

/-- First maximal run of decimal digits in a character list
(`re.search(r'\d+', ...)`). -/
def firstDigitRun : List Char → Option (List Char)
  | [] => none
  | c :: cs =>
    if c.isDigit then some (c :: cs.takeWhile Char.isDigit) else firstDigitRun cs

/-- Python `f"{n:03d}"` for a natural number: decimal, zero-padded to width 3. -/
def pad3 (n : Nat) : String :=
  let s := toString n
  if s.length < 3 then String.mk (List.replicate (3 - s.length) '0') ++ s else s

/-- The digit-run component of `_generate_id`: first run of digits of the
source id, or the `"000"` default. -/
def digitRunOr000 (rid : String) : String :=
  match firstDigitRun rid.toList with
  | some ds => String.mk ds
  | none => "000"

/-- `_generate_id(req_id, sequence)`:
`f"REQ-{business_code}-{type}-{num}{sequence:03d}"` where the type code is
`"F"` for ids starting with `"FUN"` and `"Q"` otherwise. -/
def generateId (bc rid : String) (seq : Nat) : String :=
  let t := if pyStartsWith "FUN" rid then "F" else "Q"
  "REQ-" ++ bc ++ "-" ++ t ++ "-" ++ digitRunOr000 rid ++ pad3 seq

/-- Scan for `re.search(r'^\s*[G]', s)` with a nonempty glyph class `G`:
some whitespace run from the start, immediately followed by a glyph. -/
def bulletMatchGo (gs : List Char) : List Char → Bool
  | [] => false
  | c :: cs =>
    if gs.contains c then true
    else if c.isWhitespace then bulletMatchGo gs cs else false

/-- Whether a line matches the level pattern `^\s*[glyphs]`. -/
def bulletMatch (glyphs s : String) : Bool :=
  bulletMatchGo glyphs.toList s.toList

/-- `re.sub(r'^\s*[G]+\s*', '', s).strip()` for the combined glyph class:
if a leading (whitespace*, glyph+) run exists it is removed together with
the whitespace that follows it; the result is stripped. -/
def stripLine (glyphs s : String) : String :=
  let t1 := s.toList.dropWhile Char.isWhitespace
  match t1 with
  | [] => pyStrip s
  | c :: _ =>
    if glyphs.toList.contains c then
      pyStrip (String.mk ((t1.dropWhile (fun d => glyphs.toList.contains d)).dropWhile
        Char.isWhitespace))
    else pyStrip s

/-- First pop rule of `_parse_details_from_paragraphs`:
`while group_stack and current_level < group_stack[-1]['level']: pop`.
The stack is kept innermost-first, so Python's `group_stack[-1]` is the head
and `group_stack[0]` is the last element. -/
def popLt (lvl : Int) : List Frame → List Frame
  | [] => []
  | f :: fs => if lvl < f.level then popLt lvl fs else f :: fs

/-- Second pop rule, run only before a Level1 push:
`while group_stack and current_level <= group_stack[-1]['level']: pop`. -/
def popLe (lvl : Int) : List Frame → List Frame
  | [] => []
  | f :: fs => if lvl ≤ f.level then popLe lvl fs else f :: fs

/-- `group_stack[0]['title']` (innermost-first list, so the last element);
only read under a nonemptiness guard. -/
def bottomTitle (fs : List Frame) : String :=
  match fs.getLast? with
  | some f => f.title
  | none => ""

/-- Mutable state of the loop in `_parse_details_from_paragraphs`:
accumulated records, `bfn_seq_counter`, and `group_stack`. -/
structure ParseState where
  recs : List DetailRec
  seq : Nat
  stack : List Frame
deriving DecidableEq

/-- Emission step (`if group_stack:` ... lines 74-84 of the source): with the
post-push stack `stack2`, append a record with the bottom frame's title and
the cleaned content unless an earlier record of the block has the same
(group, detail) pair; the sequence counter advances only on append. -/
def emitStep (bc rid : String) (st : ParseState) (clean : String)
    (stack2 : List Frame) : ParseState :=
  if stack2 = [] then { st with stack := stack2 }
  else if st.recs.any (fun r => r.group == bottomTitle stack2 && r.detail == clean) then
    { st with stack := stack2 }
  else
    { recs := st.recs ++ [⟨bottomTitle stack2, clean, generateId bc rid st.seq⟩],
      seq := st.seq + 1, stack := stack2 }

/-- One iteration of the `for p in paragraphs` loop of
`_parse_details_from_paragraphs`: skip blank lines; skip lines matching
neither level pattern; pop strictly-deeper frames; discard lines whose
content is empty after marker stripping; for Level1 lines pop
equal-or-deeper frames and push; finally run the emission step. -/
def stepLine (bc rid l1 l2 : String) (st : ParseState) (p : Para) : ParseState :=
  if pyStrip p.text = "" then st
  else if bulletMatch l1 p.text = false ∧ bulletMatch l2 p.text = false then st
  else if stripLine (l1 ++ l2) p.text = "" then
    { st with stack := popLt p.indent st.stack }
  else if bulletMatch l1 p.text then
    emitStep bc rid st (stripLine (l1 ++ l2) p.text)
      (Frame.mk (stripLine (l1 ++ l2) p.text) p.indent ::
        popLe p.indent (popLt p.indent st.stack))
  else
    emitStep bc rid st (stripLine (l1 ++ l2) p.text) (popLt p.indent st.stack)

/-- Final loop state of `_parse_details_from_paragraphs` on a paragraph list. -/
def parseState (bc : String) (ps : List Para) (rid l1 l2 : String) : ParseState :=
  ps.foldl (stepLine bc rid l1 l2) ⟨[], 1, []⟩

/-- `_parse_details_from_paragraphs(paragraphs, req_id, level1, level2)`:
the record list built by the loop. -/
def parseDetails (bc : String) (ps : List Para) (rid l1 l2 : String) : List DetailRec :=
  (parseState bc ps rid l1 l2).recs

/-- The same entry point including the pattern compilation of lines 45-46:
an empty glyph string yields the character class `[]`, which `re.compile`
rejects with `re.error("unterminated character set")`. -/
def parseDetailsE (bc : String) (ps : List Para) (rid l1 l2 : String) :
    Except String (List DetailRec) :=
  if l1 = "" then Except.error "unterminated character set"
  else if l2 = "" then Except.error "unterminated character set"
  else Except.ok (parseDetails bc ps rid l1 l2)

/-- Consume a literal from the front of a character list, returning the rest. -/
def dropLit : List Char → List Char → Option (List Char)
  | [], s => some s
  | _ :: _, [] => none
  | l :: ls, c :: cs => if l = c then dropLit ls cs else none

/-- Scan helper for Python's substring test. -/
def containsSubGo (n : List Char) : List Char → Bool
  | [] => n.isEmpty
  | c :: cs => (dropLit n (c :: cs)).isSome || containsSubGo n cs

/-- Python `needle in hay` on strings. -/
def containsSub (n s : String) : Bool :=
  containsSubGo n.toList s.toList

/-- ASCII `[A-Z]`. -/
def isAsciiUpper (c : Char) : Bool :=
  'A' ≤ c && c ≤ 'Z'

/-- Tail of the identifier pattern after the label has matched:
`\s*[:]?\s*([A-Z]{3}-\d{3})`. -/
def idTail (t : List Char) : Option (List Char) :=
  let r2 := t.dropWhile Char.isWhitespace
  let r3 := match r2 with
    | ':' :: u => u.dropWhile Char.isWhitespace
    | _ => r2
  match r3 with
  | a :: b :: c :: '-' :: d :: e :: f :: _ =>
    if isAsciiUpper a && isAsciiUpper b && isAsciiUpper c
        && d.isDigit && e.isDigit && f.isDigit then
      some [a, b, c, '-', d, e, f]
    else none
  | _ => none

/-- Attempt the whole identifier pattern
`요구사항\s*고유번호\s*[:]?\s*([A-Z]{3}-\d{3})` at one start position. -/
def reqIdAt (cs : List Char) : Option (List Char) :=
  match dropLit "요구사항".toList cs with
  | none => none
  | some t1 =>
    match dropLit "고유번호".toList (t1.dropWhile Char.isWhitespace) with
    | none => none
    | some t2 => idTail t2

/-- Leftmost-match scan for the identifier pattern. -/
def findReqIdGo : List Char → Option String
  | [] => none
  | c :: cs =>
    match reqIdAt (c :: cs) with
    | some g => some (String.mk g)
    | none => findReqIdGo cs

/-- `re.search(r'요구사항\s*고유번호\s*[:]?\s*([A-Z]{3}-\d{3})', s)`,
returning the captured group. -/
def findReqId (s : String) : Option String :=
  findReqIdGo s.toList

/-- Tail of the name pattern after the label: `\s*[:]?\s*(.+?)(?:\n|$)` with
the backtracking order of the Python engine (greedy whitespace runs tried
longest first, the optional colon preferred present, lazy capture). -/
def nameTail (t : List Char) : Option (List Char) :=
  match t.dropWhile Char.isWhitespace with
  | ':' :: r2 =>
    match r2.dropWhile Char.isWhitespace with
    | [] =>
      match r2.reverse.find? (fun c => c != '\n') with
      | some c => some [c]
      | none => some [':']
    | r3 => some (r3.takeWhile (fun c => c != '\n'))
  | [] =>
    match t.reverse.find? (fun c => c != '\n') with
    | some c => some [c]
    | none => none
  | r1 => some (r1.takeWhile (fun c => c != '\n'))

/-- Attempt the whole name pattern at one start position. -/
def reqNameAt (cs : List Char) : Option (List Char) :=
  match dropLit "요구사항".toList cs with
  | none => none
  | some t1 =>
    match dropLit "명칭".toList (t1.dropWhile Char.isWhitespace) with
    | none => none
    | some t2 => nameTail t2

/-- Leftmost-match scan for the name pattern. -/
def findReqNameGo : List Char → Option String
  | [] => none
  | c :: cs =>
    match reqNameAt (c :: cs) with
    | some g => some (String.mk g)
    | none => findReqNameGo cs

/-- `re.search(r'요구사항\s*명칭\s*[:]?\s*(.+?)(?:\n|$)', s)`, returning the
captured group. -/
def findReqName (s : String) : Option String :=
  findReqNameGo s.toList

/-- Python `"\n".join(xs)`. -/
def joinWithNl : List String → String
  | [] => ""
  | [s] => s
  | s :: rest => s ++ "\n" ++ joinWithNl rest

/-- One block of `process`: extract the identifier and the name from the
joined block text (dropping the block when either search fails), locate the
first paragraph containing the details label, and parse the paragraphs
strictly after it. -/
def processBlock (bc l1 l2 : String) (b : List Para) : List ProcRec :=
  let btext := joinWithNl (b.map Para.text)
  match findReqId btext, findReqName btext with
  | some rid0, some rname0 =>
    match List.findIdx? (fun p => containsSub "세부내용" p.text) b with
    | none => []
    | some j =>
      (parseDetails bc (b.drop (j + 1)) (pyStrip rid0) l1 l2).map
        fun r => ⟨r.group, r.detail, r.genId, pyStrip rid0, pyStrip rname0⟩
  | _, _ => []

/-- `block_markers = [i for i, p in enumerate(all_paragraphs) if '요구사항 분류' in p.text]`. -/
def markerIdxs (ps : List Para) : List Nat :=
  (List.range ps.length).filter fun i =>
    match ps[i]? with
    | some p => containsSub "요구사항 분류" p.text
    | none => false

/-- The block slices: each marker index starts a block that runs up to the
next marker index (exclusive), the last one to the end of the stream. -/
def slicesFrom (ps : List Para) : List Nat → List (List Para)
  | [] => []
  | [i] => [ps.drop i]
  | i :: j :: rest => ((ps.drop i).take (j - i)) :: slicesFrom ps (j :: rest)

/-- `process`: segment the stream at the block markers and concatenate the
per-block record lists (the summary table of the source is not modelled;
no claim concerns it). -/
def process (bc : String) (ps : List Para) (l1 l2 : String) : List ProcRec :=
  ((slicesFrom ps (markerIdxs ps)).map (processBlock bc l1 l2)).flatten

/-- The stack invariant: frame levels are strictly increasing from the
bottom (Python's `group_stack[0]`) to the top.  The list is kept
innermost-first, so adjacent entries decrease head-to-tail. -/
def levelsIncr (fs : List Frame) : Prop :=
  List.Chain' (fun a b => b.level < a.level) fs

/-- Every frame on the stack carries a nonempty title. -/
def titlesOK (fs : List Frame) : Prop :=
  ∀ f ∈ fs, f.title ≠ ""

/-- Every emitted record carries a nonempty group. -/
def groupsOK (rs : List DetailRec) : Prop :=
  ∀ r ∈ rs, r.group ≠ ""

/- ### Helper lemmas -/

theorem emitStep_stack (bc rid : String) (st : ParseState) (clean : String)
    (s2 : List Frame) : (emitStep bc rid st clean s2).stack = s2 := by
  unfold emitStep
  split_ifs <;> rfl

theorem popLt_suffix (lvl : Int) : ∀ s : List Frame, (popLt lvl s).IsSuffix s := by
  intro s
  induction s with
  | nil => simp [popLt]
  | cons f fs ih =>
    unfold popLt
    by_cases h : lvl < f.level
    · rw [if_pos h]
      exact ih.trans (List.suffix_cons f fs)
    · rw [if_neg h]

theorem popLe_suffix (lvl : Int) : ∀ s : List Frame, (popLe lvl s).IsSuffix s := by
  intro s
  induction s with
  | nil => simp [popLe]
  | cons f fs ih =>
    unfold popLe
    by_cases h : lvl ≤ f.level
    · rw [if_pos h]
      exact ih.trans (List.suffix_cons f fs)
    · rw [if_neg h]

theorem popLe_head_lt (lvl : Int) : ∀ (s : List Frame) (f : Frame),
    (popLe lvl s).head? = some f → f.level < lvl := by
  intro s
  induction s with
  | nil => intro f h; simp [popLe] at h
  | cons g gs ih =>
    intro f h
    unfold popLe at h
    by_cases hc : lvl ≤ g.level
    · rw [if_pos hc] at h
      exact ih f h
    · rw [if_neg hc] at h
      simp only [List.head?_cons, Option.some.injEq] at h
      subst h
      exact lt_of_not_le hc

theorem popLt_levelsIncr (lvl : Int) : ∀ s : List Frame,
    levelsIncr s → levelsIncr (popLt lvl s) := by
  intro s
  induction s with
  | nil => intro h; simpa [popLt] using h
  | cons f fs ih =>
    intro h
    unfold popLt
    by_cases hc : lvl < f.level
    · rw [if_pos hc]
      exact ih h.tail
    · rw [if_neg hc]
      exact h

theorem popLe_levelsIncr (lvl : Int) : ∀ s : List Frame,
    levelsIncr s → levelsIncr (popLe lvl s) := by
  intro s
  induction s with
  | nil => intro h; simpa [popLe] using h
  | cons f fs ih =>
    intro h
    unfold popLe
    by_cases hc : lvl ≤ f.level
    · rw [if_pos hc]
      exact ih h.tail
    · rw [if_neg hc]
      exact h

theorem push_levelsIncr (clean : String) (lvl : Int) (s : List Frame)
    (h : levelsIncr s) :
    levelsIncr (Frame.mk clean lvl :: popLe lvl (popLt lvl s)) := by
  have h1 := popLe_levelsIncr lvl _ (popLt_levelsIncr lvl s h)
  rw [levelsIncr, List.chain'_cons']
  refine ⟨?_, h1⟩
  intro y hy
  exact popLe_head_lt lvl _ y hy

theorem stepLine_blank (bc rid l1 l2 : String) (st : ParseState) (p : Para)
    (h : pyStrip p.text = "") : stepLine bc rid l1 l2 st p = st := by
  unfold stepLine
  rw [if_pos h]

theorem stepLine_skip (bc rid l1 l2 : String) (st : ParseState) (p : Para)
    (h1 : bulletMatch l1 p.text = false) (h2 : bulletMatch l2 p.text = false) :
    stepLine bc rid l1 l2 st p = st := by
  unfold stepLine
  by_cases hb : pyStrip p.text = ""
  · rw [if_pos hb]
  · rw [if_neg hb, if_pos ⟨h1, h2⟩]

theorem stepLine_emptyClean (bc rid l1 l2 : String) (st : ParseState) (p : Para)
    (hm : ¬(bulletMatch l1 p.text = false ∧ bulletMatch l2 p.text = false))
    (hb : pyStrip p.text ≠ "") (hc : stripLine (l1 ++ l2) p.text = "") :
    stepLine bc rid l1 l2 st p = { st with stack := popLt p.indent st.stack } := by
  unfold stepLine
  rw [if_neg hb, if_neg hm, if_pos hc]

theorem stepLine_level1 (bc rid l1 l2 : String) (st : ParseState) (p : Para)
    (hm : bulletMatch l1 p.text = true)
    (hb : pyStrip p.text ≠ "") (hc : stripLine (l1 ++ l2) p.text ≠ "") :
    stepLine bc rid l1 l2 st p =
      emitStep bc rid st (stripLine (l1 ++ l2) p.text)
        (Frame.mk (stripLine (l1 ++ l2) p.text) p.indent ::
          popLe p.indent (popLt p.indent st.stack)) := by
  unfold stepLine
  rw [if_neg hb, if_neg (by simp [hm]), if_neg hc, if_pos hm]

theorem stepLine_level2 (bc rid l1 l2 : String) (st : ParseState) (p : Para)
    (hm1 : bulletMatch l1 p.text = false) (hm2 : bulletMatch l2 p.text = true)
    (hb : pyStrip p.text ≠ "") (hc : stripLine (l1 ++ l2) p.text ≠ "") :
    stepLine bc rid l1 l2 st p =
      emitStep bc rid st (stripLine (l1 ++ l2) p.text) (popLt p.indent st.stack) := by
  unfold stepLine
  rw [if_neg hb, if_neg (by simp [hm2]), if_neg hc, if_neg (by simp [hm1])]

theorem foldl_inv (bc rid l1 l2 : String) (P : ParseState → Prop)
    (hstep : ∀ st p, P st → P (stepLine bc rid l1 l2 st p)) :
    ∀ (ps : List Para) (st : ParseState), P st →
      P (ps.foldl (stepLine bc rid l1 l2) st) := by
  intro ps
  induction ps with
  | nil => intro st h; exact h
  | cons p ps ih =>
    intro st h
    exact ih _ (hstep st p h)

theorem bottomTitle_mem : ∀ fs : List Frame, fs ≠ [] →
    ∃ f ∈ fs, bottomTitle fs = f.title := by
  intro fs h
  refine ⟨fs.getLast h, List.getLast_mem h, ?_⟩
  unfold bottomTitle
  rw [List.getLast?_eq_getLast _ h]

theorem emitStep_groupsOK (bc rid : String) (st : ParseState) (clean : String)
    (s2 : List Frame) (ht : titlesOK s2) (hr : groupsOK st.recs) :
    groupsOK (emitStep bc rid st clean s2).recs := by
  unfold emitStep
  split_ifs with h1 h2
  · exact hr
  · exact hr
  · intro r hrm
    rcases List.mem_append.mp hrm with h | h
    · exact hr r h
    · simp only [List.mem_singleton] at h
      subst h
      obtain ⟨f, hf, hbt⟩ := bottomTitle_mem s2 h1
      simpa [hbt] using ht f hf

/- ### Claim theorems -/

/-- C1 counterexample: the claim says a plain (unmarked) line with a
non-empty stack yields a DetailRecord, and a plain-only detail range yields
one record per plain line with group `""`.  The code skips any line matching
neither level pattern (line 57), so a plain-only range yields no record, and
a plain line after a Level1 header adds nothing. -/
theorem plain_line_no_record_cex :
    parseDetails "MFDS" [⟨"plain line", 0⟩] "FUN-001" "•" "-" = [] ∧
    parseDetails "MFDS" [⟨"• A", 0⟩, ⟨"plain text", 0⟩] "FUN-001" "•" "-"
      = [⟨"A", "A", "REQ-MFDS-F-001001"⟩] :=
  ⟨by decide, by decide⟩

/-- C1 (amended): a line whose bulletClass is None is discarded entirely —
it yields no record and has no effect on the loop state — and a detail range
containing only plain lines yields no records at all. -/
theorem plain_lines_discarded (bc rid l1 l2 : String) :
    (∀ (st : ParseState) (p : Para),
        bulletMatch l1 p.text = false → bulletMatch l2 p.text = false →
        stepLine bc rid l1 l2 st p = st) ∧
    (∀ ps : List Para,
        (∀ p ∈ ps, bulletMatch l1 p.text = false ∧ bulletMatch l2 p.text = false) →
        parseDetails bc ps rid l1 l2 = []) := by
  refine ⟨fun st p h1 h2 => stepLine_skip bc rid l1 l2 st p h1 h2, ?_⟩
  intro ps h
  have hfix : ∀ qs : List Para,
      (∀ p ∈ qs, bulletMatch l1 p.text = false ∧ bulletMatch l2 p.text = false) →
      ∀ st : ParseState, qs.foldl (stepLine bc rid l1 l2) st = st := by
    intro qs
    induction qs with
    | nil => intro _ st; rfl
    | cons p qs ih =>
      intro hq st
      rw [List.foldl_cons,
        stepLine_skip bc rid l1 l2 st p (hq p (by simp)).1 (hq p (by simp)).2]
      exact ih (fun q hq' => hq q (by simp [hq'])) st
  unfold parseDetails parseState
  rw [hfix ps h]

theorem plain_lines_discarded_witness :
    (∀ p ∈ [(⟨"no bullet here", 3⟩ : Para)],
        bulletMatch "•" p.text = false ∧ bulletMatch "-" p.text = false) ∧
    parseDetails "MFDS" [⟨"no bullet here", 3⟩] "FUN-001" "•" "-" = [] :=
  ⟨by decide, (plain_lines_discarded "MFDS" "FUN-001" "•" "-").2 _ (by decide)⟩

/-- C2 counterexample: the claim says every classified line pops while
`indentLevel <= top.level`, so a line at indentation equal to the top
frame's level closes that frame.  After `"• A"` and `"- x"` both at indent
0, frame `A` (level 0) is still on the stack, and the Level2 line was
emitted as a child of `A` rather than discarded: the first pop loop of the
code uses strict `<`. -/
theorem equal_indent_survives_cex :
    (parseState "MFDS" [⟨"• A", 0⟩, ⟨"- x", 0⟩] "FUN-001" "•" "-").stack
      = [⟨"A", 0⟩] ∧
    parseDetails "MFDS" [⟨"• A", 0⟩, ⟨"- x", 0⟩] "FUN-001" "•" "-"
      = [⟨"A", "A", "REQ-MFDS-F-001001"⟩, ⟨"A", "x", "REQ-MFDS-F-001002"⟩] :=
  ⟨by decide, by decide⟩

/-- C2 (amended): the pop rule that runs for every classified line is
strict (`indentLevel < top.level`), so a frame whose level equals the line's
indentation survives it; only Level1 lines run a second pop loop with `<=`
before pushing.  Equal indentation closes the previous frame only for
Level1 lines, not for Level2 lines. -/
theorem pop_rule_strict (bc rid l1 l2 : String) :
    (∀ (lvl : Int) (f : Frame) (fs : List Frame),
        f.level ≤ lvl → popLt lvl (f :: fs) = f :: fs) ∧
    (∀ (st : ParseState) (p : Para),
        bulletMatch l1 p.text = false → bulletMatch l2 p.text = true →
        pyStrip p.text ≠ "" → stripLine (l1 ++ l2) p.text ≠ "" →
        (stepLine bc rid l1 l2 st p).stack = popLt p.indent st.stack) ∧
    (∀ (st : ParseState) (p : Para),
        bulletMatch l1 p.text = true →
        pyStrip p.text ≠ "" → stripLine (l1 ++ l2) p.text ≠ "" →
        (stepLine bc rid l1 l2 st p).stack
          = Frame.mk (stripLine (l1 ++ l2) p.text) p.indent ::
              popLe p.indent (popLt p.indent st.stack)) := by
  refine ⟨?_, ?_, ?_⟩
  · intro lvl f fs h
    unfold popLt
    rw [if_neg (not_lt.mpr h)]
  · intro st p h1 h2 hb hc
    rw [stepLine_level2 bc rid l1 l2 st p h1 h2 hb hc, emitStep_stack]
  · intro st p h1 hb hc
    rw [stepLine_level1 bc rid l1 l2 st p h1 hb hc, emitStep_stack]

theorem pop_rule_strict_witness :
    ((⟨"A", 0⟩ : Frame).level ≤ 0 ∧ popLt 0 [⟨"A", 0⟩] = [⟨"A", 0⟩]) ∧
    (stepLine "MFDS" "FUN-001" "•" "-" ⟨[], 1, [⟨"A", 0⟩]⟩ ⟨"- x", 0⟩).stack
      = popLt 0 [⟨"A", 0⟩] :=
  ⟨⟨by decide, (pop_rule_strict "MFDS" "FUN-001" "•" "-").1 0 ⟨"A", 0⟩ [] (by decide)⟩,
   (pop_rule_strict "MFDS" "FUN-001" "•" "-").2.1 ⟨[], 1, [⟨"A", 0⟩]⟩ ⟨"- x", 0⟩
     (by decide) (by decide) (by decide) (by decide)⟩

/-- C3 counterexample: the claim says every pushed frame generates exactly
one DetailRecord.  Both `"• A"` lines push a frame (each is Level1 with
nonempty content), yet the output has a single record: the second frame's
(group, detail) pair duplicates the first record and is suppressed by the
inline dedup check of lines 78-79. -/
theorem duplicate_push_no_record_cex :
    parseDetails "MFDS" [⟨"• A", 0⟩, ⟨"• A", 0⟩] "FUN-001" "•" "-"
      = [⟨"A", "A", "REQ-MFDS-F-001001"⟩] := by decide

/-- C3 (amended): every pushed frame reaches the emission step with its own
content as detail and the bottom frame's title as group, and generates
exactly one DetailRecord unless an earlier record of the block already
carries the same (group, detail) pair, in which case it generates none; in
particular a single Level1 line `"• Standalone"` yields one record with
group = detail = "Standalone". -/
theorem push_emits_own_record (bc rid l1 l2 : String) :
    (∀ (st : ParseState) (p : Para),
        bulletMatch l1 p.text = true → pyStrip p.text ≠ "" →
        stripLine (l1 ++ l2) p.text ≠ "" →
        stepLine bc rid l1 l2 st p =
          emitStep bc rid st (stripLine (l1 ++ l2) p.text)
            (Frame.mk (stripLine (l1 ++ l2) p.text) p.indent ::
              popLe p.indent (popLt p.indent st.stack))) ∧
    (∀ (st : ParseState) (clean : String) (f : Frame) (fs : List Frame),
        st.recs.any (fun r => r.group == bottomTitle (f :: fs)
            && r.detail == clean) = false →
        (emitStep bc rid st clean (f :: fs)).recs
          = st.recs ++ [⟨bottomTitle (f :: fs), clean, generateId bc rid st.seq⟩]) ∧
    (∀ (st : ParseState) (clean : String) (f : Frame) (fs : List Frame),
        st.recs.any (fun r => r.group == bottomTitle (f :: fs)
            && r.detail == clean) = true →
        (emitStep bc rid st clean (f :: fs)).recs = st.recs) ∧
    parseDetails "MFDS" [⟨"• Standalone", 0⟩] "FUN-001" "•" "-"
      = [⟨"Standalone", "Standalone", "REQ-MFDS-F-001001"⟩] := by
  refine ⟨fun st p h1 hb hc => stepLine_level1 bc rid l1 l2 st p h1 hb hc, ?_, ?_, by decide⟩
  · intro st clean f fs h
    unfold emitStep
    rw [if_neg (List.cons_ne_nil f fs), if_neg (by simp [h])]
  · intro st clean f fs h
    unfold emitStep
    rw [if_neg (List.cons_ne_nil f fs), if_pos h]

theorem push_emits_own_record_witness :
    ((⟨[], 1, []⟩ : ParseState).recs.any (fun r => r.group == bottomTitle [⟨"A", 0⟩]
        && r.detail == "A") = false) ∧
    (emitStep "MFDS" "FUN-001" ⟨[], 1, []⟩ "A" [⟨"A", 0⟩]).recs
      = [] ++ [⟨bottomTitle [⟨"A", 0⟩], "A", generateId "MFDS" "FUN-001" 1⟩] :=
  ⟨by decide,
   (push_emits_own_record "MFDS" "FUN-001" "•" "-").2.1 ⟨[], 1, []⟩ "A" ⟨"A", 0⟩ []
     (by decide)⟩

/-- C4 counterexample: the claim predicts exactly two records for Scenario
A; the code also emits the Level1 header's self-record, giving three. -/
theorem scenario_a_two_records_cex :
    (parseDetails "MFDS" [⟨"• Group A", 0⟩, ⟨"- item 1", 0⟩, ⟨"- item 2", 0⟩]
      "FUN-001" "•" "-").length ≠ 2 := by decide

/-- C4 (amended): with glyph sets level1 = "•" and level2 = "-", the lines
`"• Group A"`, `"- item 1"`, `"- item 2"` at equal indentation produce
exactly three records, all with group "Group A": first the header's
self-record (detail "Group A"), then "item 1" and "item 2" in order. -/
theorem scenario_a_three_records :
    parseDetails "MFDS" [⟨"• Group A", 0⟩, ⟨"- item 1", 0⟩, ⟨"- item 2", 0⟩]
      "FUN-001" "•" "-"
      = [⟨"Group A", "Group A", "REQ-MFDS-F-001001"⟩,
         ⟨"Group A", "item 1", "REQ-MFDS-F-001002"⟩,
         ⟨"Group A", "item 2", "REQ-MFDS-F-001003"⟩] := by decide

/-- C5 counterexample: the claim says an empty glyph set does not raise.
With an empty level-1 glyph string, line 45 of the source compiles the
pattern `^\s*[]`, whose empty character class makes `re.compile` raise
`re.error("unterminated character set")` before any paragraph is read. -/
theorem empty_glyphs_error_cex :
    parseDetailsE "MFDS" [⟨"• A", 0⟩] "FUN-001" "" "-"
      = Except.error "unterminated character set" := rfl

/-- C5 (amended): an empty level-1 or level-2 glyph string makes pattern
compilation fail with a regex error; with both glyph strings nonempty the
engine never signals failure and returns the (possibly empty) record list. -/
theorem nonempty_glyphs_no_error (bc : String) (ps : List Para)
    (rid l1 l2 : String) (h1 : l1 ≠ "") (h2 : l2 ≠ "") :
    parseDetailsE bc ps rid l1 l2 = Except.ok (parseDetails bc ps rid l1 l2) := by
  unfold parseDetailsE
  rw [if_neg h1, if_neg h2]

theorem nonempty_glyphs_no_error_witness :
    ("•" : String) ≠ "" ∧ ("-" : String) ≠ "" ∧
    parseDetailsE "MFDS" [⟨"• A", 0⟩] "FUN-001" "•" "-"
      = Except.ok (parseDetails "MFDS" [⟨"• A", 0⟩] "FUN-001" "•" "-") :=
  ⟨by decide, by decide,
   nonempty_glyphs_no_error "MFDS" [⟨"• A", 0⟩] "FUN-001" "•" "-"
     (by decide) (by decide)⟩

/-- C6 counterexample: the claim says a line whose content is empty after
marker stripping has no effect whatsoever on the stack.  The bare bullet
`"•"` at indent 0 is discarded only after the first pop loop has run
(line 64 follows lines 59-60), so it pops frame `A` (level 10); the
subsequent `"- x"` at indent 10 then finds an empty stack and is dropped.
Had the bare bullet been discarded upstream, `"- x"` would have been
emitted under group `A`. -/
theorem empty_content_line_pops_cex :
    (parseState "MFDS" [⟨"• A", 10⟩, ⟨"•", 0⟩] "FUN-001" "•" "-").stack = [] ∧
    parseDetails "MFDS" [⟨"• A", 10⟩, ⟨"•", 0⟩, ⟨"- x", 10⟩] "FUN-001" "•" "-"
      = [⟨"A", "A", "REQ-MFDS-F-001001"⟩] :=
  ⟨by decide, by decide⟩

/-- C6 (amended): a bullet-matching line whose content is empty after
marker stripping emits no record and pushes nothing, but it does run the
strict pop rule before being discarded, so it can still close frames whose
level exceeds its indentation. -/
theorem empty_content_line_pops (bc rid l1 l2 : String) (st : ParseState)
    (p : Para)
    (hm : ¬(bulletMatch l1 p.text = false ∧ bulletMatch l2 p.text = false))
    (hb : pyStrip p.text ≠ "") (hc : stripLine (l1 ++ l2) p.text = "") :
    stepLine bc rid l1 l2 st p = { st with stack := popLt p.indent st.stack } :=
  stepLine_emptyClean bc rid l1 l2 st p hm hb hc

theorem empty_content_line_pops_witness :
    stepLine "MFDS" "FUN-001" "•" "-" ⟨[], 1, [⟨"A", 10⟩]⟩ ⟨"•", 0⟩
      = ⟨[], 1, popLt 0 [⟨"A", 10⟩]⟩ :=
  empty_content_line_pops "MFDS" "FUN-001" "•" "-" ⟨[], 1, [⟨"A", 10⟩]⟩ ⟨"•", 0⟩
    (by decide) (by decide) (by decide)

/-- C8 counterexample: the claim says all four components — namespace tag,
type code, digit run, sequence number — are separated by hyphens.  The
source's format string `f"...{id_num}{sequence:03d}"` concatenates the
digit run and the sequence number with no hyphen between them. -/
theorem id_components_hyphen_cex :
    generateId "MFDS" "FUN-001" 1 = "REQ-MFDS-F-001001" ∧
    generateId "MFDS" "FUN-001" 1 ≠ "REQ-MFDS-F-001-001" :=
  ⟨by decide, by decide⟩

/-- C8 (amended): the generator deterministically returns the namespace tag
`REQ-<businessCode>`, the type code (`F` when the source id starts with
`FUN`, else `Q`), and the first digit run of the source id (default `000`)
separated by hyphens, followed directly — without a separating hyphen — by
the 3-digit zero-padded sequence number; for `"FUN-001"` and sequences
1..3, the ids use type code F, digit run 001, and suffixes 001, 002, 003. -/
theorem generate_id_format (bc rid : String) (seq : Nat) :
    (pyStartsWith "FUN" rid = true →
      generateId bc rid seq
        = "REQ-" ++ bc ++ "-" ++ "F" ++ "-" ++ digitRunOr000 rid ++ pad3 seq) ∧
    (pyStartsWith "FUN" rid = false →
      generateId bc rid seq
        = "REQ-" ++ bc ++ "-" ++ "Q" ++ "-" ++ digitRunOr000 rid ++ pad3 seq) ∧
    (generateId "MFDS" "FUN-001" 1 = "REQ-MFDS-F-001001" ∧
     generateId "MFDS" "FUN-001" 2 = "REQ-MFDS-F-001002" ∧
     generateId "MFDS" "FUN-001" 3 = "REQ-MFDS-F-001003") := by
  refine ⟨?_, ?_, by decide, by decide, by decide⟩
  · intro h
    unfold generateId
    rw [h]
    simp
  · intro h
    unfold generateId
    rw [h]
    simp

theorem generate_id_format_witness :
    pyStartsWith "FUN" "FUN-001" = true ∧
    generateId "MFDS" "FUN-001" 7
      = "REQ-" ++ "MFDS" ++ "-" ++ "F" ++ "-" ++ digitRunOr000 "FUN-001" ++ pad3 7 :=
  ⟨by decide, (generate_id_format "MFDS" "FUN-001" 7).1 (by decide)⟩

theorem findIdx?_none_of_all {α : Type} (p : α → Bool) :
    ∀ l : List α, (∀ a ∈ l, p a = false) → List.findIdx? p l = none := by
  intro l
  induction l with
  | nil => intro _; rfl
  | cons a l ih =>
    intro h
    simp [List.findIdx?_cons, h a (by simp), ih (fun x hx => h x (by simp [hx]))]

theorem markerIdxs_sorted (ps : List Para) : (markerIdxs ps).Pairwise (· < ·) := by
  unfold markerIdxs
  exact (List.pairwise_lt_range _).filter _

theorem slices_flatten (ps : List Para) : ∀ ms : List Nat,
    ms.Pairwise (· < ·) → ∀ (m : Nat) (ms' : List Nat), ms = m :: ms' →
    (slicesFrom ps ms).flatten = ps.drop m := by
  intro ms
  induction ms with
  | nil => intro _ m ms' h; cases h
  | cons i rest ih =>
    intro hpw m ms' he
    injection he with h1 h2
    subst h1
    subst h2
    cases rest with
    | nil => simp [slicesFrom]
    | cons j rest' =>
      have hij : i < j := (List.pairwise_cons.mp hpw).1 j (by simp)
      have hrec := ih hpw.of_cons j rest' rfl
      have hdrop : (ps.drop i).drop (j - i) = ps.drop j := by
        rw [List.drop_drop, Nat.add_sub_cancel' (le_of_lt hij)]
      calc (slicesFrom ps (i :: j :: rest')).flatten
          = ((ps.drop i).take (j - i)) ++ (slicesFrom ps (j :: rest')).flatten := by
            simp [slicesFrom]
        _ = ((ps.drop i).take (j - i)) ++ (ps.drop i).drop (j - i) := by
            rw [hrec, hdrop]
        _ = ps.drop i := List.take_append_drop _ _

/-- C7: blocks start at every paragraph containing the block-start marker
and tile the stream from the first marker to the end; a block whose
identifier search or name search fails contributes no records; a block with
no details-label paragraph contributes no records; and a kept block's
records come exactly from the paragraphs strictly after the first
details-label paragraph. -/
theorem block_segmentation_spec :
    (∀ (ps : List Para) (i : Nat), i ∈ markerIdxs ps ↔
        ∃ p, ps[i]? = some p ∧ containsSub "요구사항 분류" p.text = true) ∧
    (∀ (ps : List Para) (m : Nat) (ms : List Nat), markerIdxs ps = m :: ms →
        (slicesFrom ps (markerIdxs ps)).flatten = ps.drop m) ∧
    (∀ (bc l1 l2 : String) (ps : List Para), process bc ps l1 l2
        = ((slicesFrom ps (markerIdxs ps)).map (processBlock bc l1 l2)).flatten) ∧
    (∀ (bc l1 l2 : String) (b : List Para),
        findReqId (joinWithNl (b.map Para.text)) = none ∨
          findReqName (joinWithNl (b.map Para.text)) = none →
        processBlock bc l1 l2 b = []) ∧
    (∀ (bc l1 l2 : String) (b : List Para),
        (∀ p ∈ b, containsSub "세부내용" p.text = false) →
        processBlock bc l1 l2 b = []) ∧
    (∀ (bc l1 l2 : String) (b : List Para) (j : Nat) (rid rname : String),
        List.findIdx? (fun p => containsSub "세부내용" p.text) b = some j →
        findReqId (joinWithNl (b.map Para.text)) = some rid →
        findReqName (joinWithNl (b.map Para.text)) = some rname →
        processBlock bc l1 l2 b
          = (parseDetails bc (b.drop (j + 1)) (pyStrip rid) l1 l2).map
              fun r => ⟨r.group, r.detail, r.genId, pyStrip rid, pyStrip rname⟩) := by
  refine ⟨?_, ?_, ?_, ?_, ?_, ?_⟩
  · intro ps i
    unfold markerIdxs
    rw [List.mem_filter, List.mem_range]
    constructor
    · rintro ⟨hi, hp⟩
      cases h : ps[i]? with
      | none => rw [h] at hp; simp at hp
      | some p =>
        rw [h] at hp
        exact ⟨p, rfl, hp⟩
    · rintro ⟨p, hp, hc⟩
      have hi : i < ps.length := by
        by_contra hge
        rw [List.getElem?_eq_none (by omega)] at hp
        cases hp
      refine ⟨hi, ?_⟩
      rw [hp]
      exact hc
  · intro ps m ms h
    exact slices_flatten ps _ (markerIdxs_sorted ps) m ms h
  · intro bc l1 l2 ps
    rfl
  · intro bc l1 l2 b h
    rcases h with h | h
    · cases hy : findReqName (joinWithNl (b.map Para.text)) <;>
        simp [processBlock, h, hy]
    · cases hx : findReqId (joinWithNl (b.map Para.text)) <;>
        simp [processBlock, h, hx]
  · intro bc l1 l2 b h
    have hidx := findIdx?_none_of_all (fun p => containsSub "세부내용" p.text) b h
    cases hx : findReqId (joinWithNl (b.map Para.text)) <;>
      cases hy : findReqName (joinWithNl (b.map Para.text)) <;>
      simp [processBlock, hx, hy, hidx]
  · intro bc l1 l2 b j rid rname hj hx hy
    simp only [processBlock, hx, hy, hj]

theorem block_segmentation_spec_witness :
    (0 ∈ markerIdxs [(⟨"요구사항 분류", 0⟩ : Para)]) ∧
    processBlock "MFDS" "•" "-" [⟨"요구사항 분류", 0⟩] = [] ∧
    processBlock "MFDS" "•" "-"
      [⟨"요구사항 분류", 0⟩, ⟨"요구사항 고유번호: FUN-001", 0⟩,
        ⟨"요구사항 명칭: 계정 관리", 0⟩] = [] :=
  ⟨(block_segmentation_spec.1 _ 0).mpr ⟨⟨"요구사항 분류", 0⟩, by decide, by decide⟩,
   block_segmentation_spec.2.2.2.1 "MFDS" "•" "-" _ (Or.inl (by decide)),
   block_segmentation_spec.2.2.2.2.1 "MFDS" "•" "-" _ (by decide)⟩

/-- C9: at every stable point between processed lines the frame levels are
strictly increasing from the bottom of the stack to the top, and this
invariant is preserved by processing any line. -/
theorem stack_levels_strict (bc rid l1 l2 : String) :
    (∀ (st : ParseState) (p : Para), levelsIncr st.stack →
        levelsIncr (stepLine bc rid l1 l2 st p).stack) ∧
    (∀ (ps : List Para) (n : Nat),
        levelsIncr (parseState bc (ps.take n) rid l1 l2).stack) := by
  have hstep : ∀ (st : ParseState) (p : Para), levelsIncr st.stack →
      levelsIncr (stepLine bc rid l1 l2 st p).stack := by
    intro st p h
    unfold stepLine
    split_ifs with h1 h2 h3 h4
    · exact h
    · exact h
    · exact popLt_levelsIncr _ _ h
    · rw [emitStep_stack]
      exact push_levelsIncr _ _ _ h
    · rw [emitStep_stack]
      exact popLt_levelsIncr _ _ h
  refine ⟨hstep, ?_⟩
  intro ps n
  exact foldl_inv bc rid l1 l2 (fun st => levelsIncr st.stack) hstep (ps.take n) _
    (by unfold levelsIncr; exact List.chain'_nil)

theorem stack_levels_strict_witness :
    levelsIncr (⟨[], 1, [⟨"G", 0⟩]⟩ : ParseState).stack ∧
    levelsIncr (stepLine "MFDS" "FUN-001" "•" "-" ⟨[], 1, [⟨"G", 0⟩]⟩ ⟨"- x", 5⟩).stack :=
  ⟨by unfold levelsIncr; exact List.chain'_singleton _,
   (stack_levels_strict "MFDS" "FUN-001" "•" "-").1 ⟨[], 1, [⟨"G", 0⟩]⟩ ⟨"- x", 5⟩
     (by unfold levelsIncr; exact List.chain'_singleton _)⟩

/-- C10: only Level1-classified lines ever push a frame (any line failing
the level-1 pattern leaves the stack a suffix of what it was), every frame
title is the nonempty stripped content of the Level1 line that pushed it,
and consequently every emitted record has a nonempty group — a record with
group = "" is never produced. -/
theorem records_group_nonempty (bc rid l1 l2 : String) :
    (∀ (st : ParseState) (p : Para), bulletMatch l1 p.text = false →
        ((stepLine bc rid l1 l2 st p).stack).IsSuffix st.stack) ∧
    (∀ (ps : List Para) (r : DetailRec),
        r ∈ parseDetails bc ps rid l1 l2 → r.group ≠ "") := by
  constructor
  · intro st p hm
    unfold stepLine
    split_ifs with h1 h2 h3 h4
    · exact List.suffix_refl _
    · exact List.suffix_refl _
    · exact popLt_suffix _ _
    · rw [hm] at h4
      cases h4
    · rw [emitStep_stack]
      exact popLt_suffix _ _
  · intro ps r hr
    have hstep : ∀ (st : ParseState) (p : Para),
        titlesOK st.stack ∧ groupsOK st.recs →
        titlesOK (stepLine bc rid l1 l2 st p).stack ∧
          groupsOK (stepLine bc rid l1 l2 st p).recs := by
      rintro st p ⟨hts, hgs⟩
      unfold stepLine
      split_ifs with h1 h2 h3 h4
      · exact ⟨hts, hgs⟩
      · exact ⟨hts, hgs⟩
      · exact ⟨fun f hf => hts f ((popLt_suffix _ _).subset hf), hgs⟩
      · have htitles : titlesOK (Frame.mk (stripLine (l1 ++ l2) p.text) p.indent ::
            popLe p.indent (popLt p.indent st.stack)) := by
          intro f hf
          rcases List.mem_cons.mp hf with h | h
          · subst h
            exact h3
          · exact hts f ((popLt_suffix _ _).subset ((popLe_suffix _ _).subset h))
        refine ⟨?_, emitStep_groupsOK _ _ _ _ _ htitles hgs⟩
        rw [emitStep_stack]
        exact htitles
      · have htitles : titlesOK (popLt p.indent st.stack) :=
          fun f hf => hts f ((popLt_suffix _ _).subset hf)
        refine ⟨?_, emitStep_groupsOK _ _ _ _ _ htitles hgs⟩
        rw [emitStep_stack]
        exact htitles
    have hinit1 : titlesOK (⟨[], 1, []⟩ : ParseState).stack := by
      intro f hf
      cases hf
    have hinit2 : groupsOK (⟨[], 1, []⟩ : ParseState).recs := by
      intro r' hr'
      cases hr'
    have key := foldl_inv bc rid l1 l2
      (fun st => titlesOK st.stack ∧ groupsOK st.recs) hstep ps ⟨[], 1, []⟩
      ⟨hinit1, hinit2⟩
    exact key.2 r hr

theorem records_group_nonempty_witness :
    ((⟨"A", "A", "REQ-MFDS-F-001001"⟩ : DetailRec)
        ∈ parseDetails "MFDS" [⟨"• A", 0⟩] "FUN-001" "•" "-") ∧
    (⟨"A", "A", "REQ-MFDS-F-001001"⟩ : DetailRec).group ≠ "" :=
  ⟨by decide,
   (records_group_nonempty "MFDS" "FUN-001" "•" "-").2 [⟨"• A", 0⟩]
     ⟨"A", "A", "REQ-MFDS-F-001001"⟩ (by decide)⟩

end ReqExtr
